import Mathlib

set_option autoImplicit false

/-!
Verification of the `cloe_launch` component of eclipse/cloe
(`src/cli/cloe_launch`): the `Environment` class and `Engine` fragments of
`exec.py`, and the helpers of `utility.py` and `binutils.py`.

Modelling conventions:
- Python strings are `List Char` (`PyStr`).
- Python dicts with insertion order (`Environment._data`, `os.environ`,
  the class-level `_shell_env`) are association lists (`EnvMap`); the
  operations keep keys unique.
- Child processes are outside the model: a function that consumes the
  result of a `subprocess.run` takes the `CompletedProcess` as an argument.
- Python exceptions are `Except PyErr`.
-/

/-- Model of a Python string: a list of characters. -/
abbrev PyStr := List Char

/-- Convert a Lean string literal into the `PyStr` model. -/
def pyStr (s : String) : PyStr := s.toList

/-- Newline character. -/
def nlChar : Char := Char.ofNat 10

/-- Single-quote character, used by shell quoting. -/
def sqChar : Char := Char.ofNat 39

/-- Double-quote character, used by shell quoting. -/
def dqChar : Char := Char.ofNat 34

/-- Characters for which Python `str.strip()` with no argument strips:
space, tab, newline, carriage return, vertical tab, form feed. -/
def isPySpace (c : Char) : Bool :=
  c = ' ' || c = Char.ofNat 9 || c = nlChar || c = Char.ofNat 13 ||
    c = Char.ofNat 11 || c = Char.ofNat 12

/-- Helper for `splitOnChar`: returns the first piece and the remaining
pieces separately, so that the split is never the empty list. -/
def splitOnCharAux (sep : Char) : PyStr → PyStr × List PyStr
  | [] => ([], [])
  | c :: cs =>
    if c = sep then ([], (splitOnCharAux sep cs).1 :: (splitOnCharAux sep cs).2)
    else (c :: (splitOnCharAux sep cs).1, (splitOnCharAux sep cs).2)

/-- Python `s.split(sep)` for a one-character separator: always returns at
least one piece, and one more piece than there are separator occurrences. -/
def splitOnChar (sep : Char) (l : PyStr) : List PyStr :=
  (splitOnCharAux sep l).1 :: (splitOnCharAux sep l).2

/-- Python `sep.join(pieces)` for a one-character separator. -/
def joinSep (sep : Char) : List PyStr → PyStr
  | [] => []
  | [p] => p
  | p :: ps => p ++ sep :: joinSep sep ps

/-- Python `s.split(sep, 1)`: split at the first occurrence of the
separator only; `none` when the separator does not occur at all. -/
def splitOnceChar (sep : Char) : PyStr → Option (PyStr × PyStr)
  | [] => none
  | c :: cs =>
    if c = sep then some ([], cs)
    else
      match splitOnceChar sep cs with
      | none => none
      | some (l, r) => some (c :: l, r)

/-- Model of a Python dict from strings to strings, keeping insertion
order: an association list whose operations keep keys unique. -/
abbrev EnvMap := List (PyStr × PyStr)

/-- Dict lookup, `d.get(k)`. -/
def envLookup (d : EnvMap) (k : PyStr) : Option PyStr :=
  match d with
  | [] => none
  | (k0, v0) :: rest => if k0 = k then some v0 else envLookup rest k

/-- Dict membership, `k in d`. -/
def envHas (d : EnvMap) (k : PyStr) : Bool := (envLookup d k).isSome

/-- Dict assignment `d[k] = v`: replace the value in place when the key is
present, append a new entry otherwise. -/
def envSet (d : EnvMap) (k v : PyStr) : EnvMap :=
  match d with
  | [] => [(k, v)]
  | (k0, v0) :: rest => if k0 = k then (k0, v) :: rest else (k0, v0) :: envSet rest k v

/-- One line of `Environment.init_from_str` (exec.py): skip lines that are
whitespace-only (`line.strip() == ""`) or that start with `#`; otherwise
split at the first `=` and assign.  A line with no `=` hits the
`IndexError` branch, which logs and skips the line. -/
def init_from_str_line (d : EnvMap) (line : PyStr) : EnvMap :=
  if line.all isPySpace then d
  else if line.head? = some '#' then d
  else
    match splitOnceChar '=' line with
    | none => d
    | some (k, v) => envSet d k v

/-- `Environment.init_from_str` (exec.py): split the data on newlines and
process each line in order. -/
def init_from_str (d : EnvMap) (data : PyStr) : EnvMap :=
  (splitOnChar nlChar data).foldl init_from_str_line d

/-- Characters that `shlex.quote` leaves unquoted: the complement of
Python's `_find_unsafe` pattern under `re.ASCII`, i.e. ASCII alphanumerics,
underscore, and these: at-sign, percent, plus, equals, colon, comma, dot,
slash, hyphen. -/
def shlexSafe (c : Char) : Bool :=
  c.isAlphanum || c = '_' || c = '@' || c = '%' || c = '+' || c = '=' ||
    c = ':' || c = ',' || c = '.' || c = '/' || c = '-'

/-- `shlex.quote`: the empty string becomes two single quotes; a non-empty
string of safe characters is returned unchanged; any other string is
wrapped in single quotes with each embedded single quote replaced by the
five-character sequence quote, double quote, quote, double quote, quote. -/
def shlexQuote (s : PyStr) : PyStr :=
  if s = [] then [sqChar, sqChar]
  else if s.all shlexSafe then s
  else
    sqChar ::
      (s.flatMap fun c =>
        if c = sqChar then [sqChar, dqChar, sqChar, dqChar, sqChar] else [c]) ++
      [sqChar]

/-- `Environment.export` (exec.py): write one `KEY=<shlex.quote(VALUE)>`
line per entry, each terminated by a newline, in dict order. -/
def export_env (d : EnvMap) : PyStr :=
  d.foldl (fun acc kv => acc ++ kv.1 ++ '=' :: shlexQuote kv.2 ++ [nlChar]) []

/-- `Environment.path_append` (exec.py): when the key is present the new
value is appended after a `:` separator; otherwise the key is set. -/
def path_append (d : EnvMap) (key value : PyStr) : EnvMap :=
  match envLookup d key with
  | some old => envSet d key (old ++ ':' :: value)
  | none => envSet d key value

/-- `Environment.path_prepend` exactly as written in exec.py
(`self._data[key] = self._sep + str(value) + self._data[key]`): when the
key is present the stored value becomes separator, then the new value, then
the old value — the separator sits in front of the new value instead of
between the new and old values. -/
def path_prepend (d : EnvMap) (key value : PyStr) : EnvMap :=
  match envLookup d key with
  | some old => envSet d key (':' :: (value ++ old))
  | none => envSet d key value

/-- `Environment.path_set` (exec.py): join the values with `:`. -/
def path_set (d : EnvMap) (key : PyStr) (values : List PyStr) : EnvMap :=
  envSet d key (joinSep ':' values)

/-- `OrderedDict.fromkeys` on a sequence: keep the first occurrence of
each element and drop later duplicates; `seen` carries the keys already
emitted. -/
def dedupKeepFirst {α : Type} [DecidableEq α] (seen : List α) : List α → List α
  | [] => []
  | x :: xs =>
    if x ∈ seen then dedupKeepFirst seen xs
    else x :: dedupKeepFirst (x :: seen) xs

/-- `Environment.deduplicate_list` (exec.py): when the key is present,
split its value on `:`, keep the first occurrence of each segment, and
re-join with `:`. -/
def deduplicate_list (d : EnvMap) (key : PyStr) : EnvMap :=
  match envLookup d key with
  | none => d
  | some v => envSet d key (joinSep ':' (dedupKeepFirst [] (splitOnChar ':' v)))

/-- Result of `subprocess.run` as far as the model needs it. -/
structure CompletedProcess where
  returncode : Int
  stdout : PyStr
deriving DecidableEq, Repr

/-- Python exceptions raised by the modelled fragments. -/
inductive PyErr
  | childProcessError
  | calledProcessError
  | keyError
  | runtimeError
deriving DecidableEq, Repr

/-- `run_cmd` of utility.py (`runCmd` here, since that spelling is
reserved in Lean): the command's outcome is the `result` argument (the
child process is outside the model).  A non-zero return code is logged
and, when `must_succeed` holds — its Python default is `True` — a
`ChildProcessError` is raised. -/
def runCmd (result : CompletedProcess) (must_succeed : Bool) :
    Except PyErr CompletedProcess :=
  if result.returncode ≠ 0 ∧ must_succeed = true then
    Except.error PyErr.childProcessError
  else Except.ok result

/-- `Environment.init_from_shell` (exec.py): source the files in a child
shell and capture `env` output (the child's behaviour is the `child`
argument).  The call is `run_cmd(cmd, env=self._shell_env)`, so
`must_succeed` keeps its default `True`; the `returncode != 0` logging
branch that follows the call is unreachable because `run_cmd` already
raised in that case. -/
def init_from_shell (d : EnvMap) (child : CompletedProcess) :
    Except PyErr EnvMap :=
  match runCmd child true with
  | Except.error e => Except.error e
  | Except.ok r => Except.ok (init_from_str d r.stdout)

/-- Specification-level dedup used to state first-occurrence preservation:
keep each element where it first occurs and delete every later duplicate. -/
def keepFirstRec {α : Type} [DecidableEq α] : List α → List α
  | [] => []
  | x :: xs => x :: keepFirstRec (xs.filter fun y => y ≠ x)
termination_by l => l.length
decreasing_by
  simp only [List.length_cons]
  exact Nat.lt_succ_of_le (List.length_filter_le _ _)

/-- List branch of `Environment.__init__` in literal mode
(`source_file=False`, exec.py): start from an empty dict, run
`init_from_file` — i.e. `init_from_str` on the file's content — for each
file in order, then, when more than one file was given, call
`deduplicate_list` on the single variable `"PATH"`. -/
def environment_init_files (contents : List PyStr) : EnvMap :=
  let d := contents.foldl init_from_str []
  if 1 < contents.length then deduplicate_list d (pyStr "PATH") else d

/-- Body of one line written by `Environment.export`:
`KEY=<shlex.quote(VALUE)>` without the trailing newline. -/
def exportBody (kv : PyStr × PyStr) : PyStr :=
  kv.1 ++ '=' :: shlexQuote kv.2

/-- One full line written by `Environment.export`, newline included. -/
def exportLine (kv : PyStr × PyStr) : PyStr :=
  exportBody kv ++ [nlChar]

/-- Round trip behind `Environment.export` and literal re-import: write
the dict with `export` and read the written text back with
`init_from_str` into a fresh dict (`source_file=False` mode). -/
def export_reimport (d : EnvMap) : EnvMap :=
  init_from_str [] (export_env d)

/-- Outcome of an invocation of `Engine.shell`. -/
inductive ShellOutcome
  | exited (code : Nat)
  | raisedRuntimeError
  | execReplaced
deriving DecidableEq, Repr

/-- Configuration bits that steer the control flow of `Engine.shell`
around the recursion guard. -/
structure ShellRunConfig where
  use_cache : Bool
  runtime_env_exists : Bool
  conanrun_exists : Bool
  activate_run_exists : Bool
  cloe_shell_in_env : Bool
  abort_recursive_shell : Bool
deriving DecidableEq, Repr

/-- `Engine._write_cloe_env` (exec.py): choose `conanrun.sh` or
`activate_run.sh` (a `RuntimeError` when neither exists), source it into a
fresh `Environment`, then the recursion guard: when that environment has
`CLOE_SHELL`, log an error and — when `abort_recursive_shell` is set —
call `sys.exit(2)`.  The result is `some outcome` when control aborts and
`none` when it falls through to writing `environment_cloe.sh.env`. -/
def write_cloe_env_guard (c : ShellRunConfig) : Option ShellOutcome :=
  if !c.conanrun_exists && !c.activate_run_exists then
    some ShellOutcome.raisedRuntimeError
  else if c.cloe_shell_in_env && c.abort_recursive_shell then
    some (ShellOutcome.exited 2)
  else none

/-- `Engine._prepare_runtime_env` (exec.py): when
`runtime_env_path().exists()` and `use_cache` hold, the runtime directory
is reused and `_prepare_runtime_dir` — and with it `_write_cloe_env`,
the only place the recursion guard runs — is skipped entirely; otherwise
the directory is rebuilt and the guard runs. -/
def prepare_runtime_env_outcome (c : ShellRunConfig) : Option ShellOutcome :=
  if c.runtime_env_exists && c.use_cache then none
  else write_cloe_env_guard c

/-- `Engine.shell` (exec.py) control flow around the recursion guard: an
abort inside `_prepare_runtime_env` propagates; otherwise control reaches
`os.execvpe` at the end of `shell`, replacing the process image. -/
def shell_outcome (c : ShellRunConfig) : ShellOutcome :=
  match prepare_runtime_env_outcome c with
  | some o => o
  | none => ShellOutcome.execReplaced

/-- Event in the side-effect trace of `Engine.exec`. -/
inductive ExecEv
  | setupEv (plugin : PyStr)
  | runEv (code : Int)
  | teardownEv (plugin : PyStr)
deriving DecidableEq, Repr

/-- `subprocess.run(cmd, check=check, ...)`: raises `CalledProcessError`
on a non-zero exit status only when `check` is true; the child's exit
status is the `code` argument. -/
def subprocessRun (code : Int) (check : Bool) : Except PyErr CompletedProcess :=
  if check = true ∧ code ≠ 0 then Except.error PyErr.calledProcessError
  else Except.ok (CompletedProcess.mk code [])

/-- `Engine.exec` (exec.py): call `setup()` on every discovered plugin
setup, read `env["CLOE_ENGINE"]` (a `KeyError` when absent), run the
engine command via `subprocess.run(cmd, check=False, env=...)`, then call
`teardown()` on every plugin setup, and return the `CompletedProcess`
unchanged.  The child's exit status is the `childCode` argument; the
returned trace records the order of the side effects. -/
def engine_exec (env : EnvMap) (setups : List PyStr) (childCode : Int) :
    Except PyErr (Int × List ExecEv) :=
  match envLookup env (pyStr "CLOE_ENGINE") with
  | none => Except.error PyErr.keyError
  | some _ =>
    match subprocessRun childCode false with
    | Except.error e => Except.error e
    | Except.ok r =>
      Except.ok (r.returncode,
        setups.map ExecEv.setupEv ++
          ExecEv.runEv r.returncode :: setups.map ExecEv.teardownEv)

/-- File as seen by `patchelf --print-rpath`: whether the tool accepts it
as an ELF executable, and its original RPATH (empty when it has none). -/
structure BinFile where
  isElf : Bool
  origRpath : PyStr
deriving DecidableEq, Repr

/-- `patch_rpath` of utility.py: when `patchelf --print-rpath` reports
"not an ELF executable" the file is skipped (`return` before any other
action).  Otherwise the file's original RPATH, when non-empty, is appended
to the caller's `rpath` list — `rpath.append(original)` mutates the
caller's list object in place, with no copy — and `patchelf --set-rpath`
writes the `:`-join of that list.  The result is the list object's new
state plus the written RPATH (`none` when the file was skipped). -/
def utility_patch_rpath (f : BinFile) (rpath : List PyStr) :
    List PyStr × Option PyStr :=
  if f.isElf = false then (rpath, none)
  else
    let rp := if f.origRpath ≠ [] then rpath ++ [f.origRpath] else rpath
    (rp, some (joinSep ':' rp))

/-- `patch_binary_files_rpath` of utility.py: patch each binary file of
the directory in order, passing the same `rpath` list object to every
`patch_rpath` call; the result is the RPATH written to each file. -/
def utility_patch_binary_files_rpath (files : List BinFile) (rpath : List PyStr) :
    List (Option PyStr) :=
  (files.foldl
    (fun st f =>
      let r := utility_patch_rpath f st.1
      (r.1, st.2 ++ [r.2]))
    (rpath, ([] : List (Option PyStr)))).2

/-- `patch_rpath` of binutils.py: same skip condition, but the function
first takes `rpath = rpath.copy()`, so the caller's list is never
mutated; the written RPATH is the new entries followed by the file's own
original RPATH when non-empty. -/
def binutils_patch_rpath (f : BinFile) (rpath : List PyStr) : Option PyStr :=
  if f.isElf = false then none
  else some (joinSep ':' (if f.origRpath ≠ [] then rpath ++ [f.origRpath] else rpath))

/-- `patch_binary_files_rpath` of binutils.py: each file is patched from
the caller's unchanged `rpath` list. -/
def binutils_patch_binary_files_rpath (files : List BinFile) (rpath : List PyStr) :
    List (Option PyStr) :=
  files.map fun f => binutils_patch_rpath f rpath

/-- Absolute filesystem path, as its component list: `/a/b` is the list
`[a, b]` and the root `/` is `[]`.  `Path.parent` drops the last
component; the parent of the root is the root itself. -/
abbrev PathT := List PyStr

/-- Chain of ancestors visited by the `while parent != parent.parent`
loop of `simplify_manifest` (exec.py): every proper non-empty prefix of
the path, i.e. `path.parent`, `path.parent.parent`, … stopping before the
root.  Collected here shortest-first; the loop visits them longest-first,
but only the set matters because each is tested and removed
independently. -/
def nonrootAncestors : PathT → List PathT
  | [] => []
  | [_] => []
  | x :: xs => [x] :: (nonrootAncestors xs).map (fun q => x :: q)

/-- One iteration of the outer `for path in list(manifest)` loop of
`simplify_manifest` (exec.py): remove from the manifest every ancestor of
`p` that the while loop visits (`if parent in manifest:
manifest.remove(parent)`). -/
def manifest_remove_ancestors (acc : List PathT) (p : PathT) : List PathT :=
  acc.filter fun q => q ∉ nonrootAncestors p

/-- `simplify_manifest` (exec.py): iterate over a snapshot of the
manifest (`list(manifest)`), removing the visited ancestors of each
entry from the (mutable) manifest set. -/
def simplify_manifest (manifest : List PathT) : List PathT :=
  manifest.foldl manifest_remove_ancestors manifest

/-- One pattern of the `Environment._preserve` allow-list, as used in
`_init_shell_env` (exec.py), which matches each key against the regex
`^(p1|p2|…)$` built from the list: a pattern is either a literal name, a
name with a trailing `.*` wildcard, or a group of alternatives followed by
a literal suffix (the proxy patterns). -/
inductive PreservePat
  | lit (s : PyStr)
  | starSuffix (pre : PyStr)
  | altSuffix (alts : List PyStr) (suf : PyStr)
deriving DecidableEq, Repr

/-- Full-string match of one `PreservePat` against a key, mirroring the
anchored regex `^(…)$`: a literal matches only itself; `pre` followed by
`.*` matches any key of which `pre` is a prefix; an alternative group
followed by a suffix matches any alternative concatenated with the
suffix. -/
def matchesPat (p : PreservePat) (k : PyStr) : Bool :=
  match p with
  | PreservePat.lit s => k = s
  | PreservePat.starSuffix pre => pre.isPrefixOf k
  | PreservePat.altSuffix alts suf => alts.any fun a => k = a ++ suf

/-- Match of a key against the joined `_preserve` regex
`^(p1|p2|…)$`: any one pattern matches. -/
def matchesPreserve (pats : List PreservePat) (k : PyStr) : Bool :=
  pats.any fun p => matchesPat p k

/-- The class-level `Environment._preserve` default (exec.py lines
74–100), transcribed pattern by pattern. -/
def default_preserve : List PreservePat :=
  [PreservePat.lit (pyStr "CLOE_SHELL"),
   PreservePat.starSuffix (pyStr "XDG_"),
   PreservePat.lit (pyStr "HOME"),
   PreservePat.lit (pyStr "USER"),
   PreservePat.lit (pyStr "LANGUAGE"),
   PreservePat.lit (pyStr "LANG"),
   PreservePat.starSuffix (pyStr "LC_"),
   PreservePat.lit (pyStr "ZDOTDIR"),
   PreservePat.lit (pyStr "PWD"),
   PreservePat.lit (pyStr "XAUTHORITY"),
   PreservePat.lit (pyStr "DISPLAY"),
   PreservePat.lit (pyStr "COLORTERM"),
   PreservePat.lit (pyStr "TERM"),
   PreservePat.lit (pyStr "TERMINAL"),
   PreservePat.lit (pyStr "S_COLORS"),
   PreservePat.altSuffix
     [pyStr "HTTP", pyStr "HTTPS", pyStr "FTP", pyStr "SOCKS", pyStr "NO"]
     (pyStr "_PROXY"),
   PreservePat.altSuffix
     [pyStr "http", pyStr "https", pyStr "ftp", pyStr "socks", pyStr "no"]
     (pyStr "_proxy")]

/-- `Environment._init_shell_env` (exec.py): for every key of the process
environment that matches the preserve regex, write it into `_shell_env`.
`_shell_env` is a class attribute and `self._shell_env[key] = base[key]`
mutates that shared dict in place, so its state is an explicit argument
and result here — it persists across `Environment` constructions within
one process. -/
def init_shell_env (pats : List PreservePat) (base : EnvMap) (shell_env : EnvMap) :
    EnvMap :=
  base.foldl
    (fun se kv => if matchesPreserve pats kv.1 then envSet se kv.1 kv.2 else se)
    shell_env

/-- Start of `Environment.__init__` (exec.py) as far as the child-shell
environment is concerned: an explicit `preserve` argument replaces the
instance's pattern list, `none` keeps the class default; then
`_init_shell_env(os.environ)` runs against the shared class-level
`_shell_env` dict.  The result is the new shared dict state, which is
also the environment `init_from_shell` passes to the child shell. -/
def environment_shell_env (preserve : Option (List PreservePat))
    (proc_env : EnvMap) (class_shell_env : EnvMap) : EnvMap :=
  init_shell_env (preserve.getD default_preserve) proc_env class_shell_env

/-- Initial value of the class-level `_shell_env` dict (exec.py line 71). -/
def initial_shell_env : EnvMap := [(pyStr "PATH", pyStr "/bin:/usr/bin")]

/-- C1: the claim states that a non-zero exit of the sourcing shell is
logged but raises no exception, `init_from_shell` returning normally.  The
code does the opposite: `run_cmd` is called with its default
`must_succeed=True`, so any non-zero child exit raises `ChildProcessError`
out of `init_from_shell` (and out of the `Environment` constructor); the
log-and-continue branch inside `init_from_shell` is dead code. -/
theorem c1_init_from_shell_raises_on_nonzero_exit
    (d : EnvMap) (child : CompletedProcess) (h : child.returncode ≠ 0) :
    init_from_shell d child = Except.error PyErr.childProcessError := by
  simp [init_from_shell, runCmd, h]

/-- C1 witness: a child shell that exits with code 1 makes
`init_from_shell` raise `ChildProcessError`. -/
theorem c1_witness :
    (CompletedProcess.mk 1 []).returncode ≠ 0 ∧
      init_from_shell [] (CompletedProcess.mk 1 []) =
        Except.error PyErr.childProcessError :=
  ⟨by decide,
    c1_init_from_shell_raises_on_nonzero_exit [] (CompletedProcess.mk 1 []) (by decide)⟩

/-- C5: `path_append` behaves as claimed (absent key sets the value;
present key appends after a `:`), but `path_prepend` on a present key
produces separator-value-old (here `:/b/a`) instead of the claimed
value-separator-old (`/b:/a`): the separator is written before the new
value and no separator lands between the new and the old value. -/
theorem c5_path_prepend_misplaces_separator :
    path_append [] (pyStr "PATH") (pyStr "/b") = [(pyStr "PATH", pyStr "/b")] ∧
    path_prepend [] (pyStr "PATH") (pyStr "/b") = [(pyStr "PATH", pyStr "/b")] ∧
    path_append [(pyStr "PATH", pyStr "/a")] (pyStr "PATH") (pyStr "/b") =
      [(pyStr "PATH", pyStr "/a:/b")] ∧
    path_prepend [(pyStr "PATH", pyStr "/a")] (pyStr "PATH") (pyStr "/b") =
      [(pyStr "PATH", pyStr ":/b/a")] ∧
    pyStr ":/b/a" ≠ pyStr "/b:/a" :=
  ⟨rfl, rfl, rfl, rfl, by decide⟩

/-- Neither the first piece nor any later piece of a split contains the
separator. -/
theorem splitOnCharAux_no_sep (sep : Char) (l : PyStr) :
    sep ∉ (splitOnCharAux sep l).1 ∧ ∀ p ∈ (splitOnCharAux sep l).2, sep ∉ p := by
  induction l with
  | nil => simp [splitOnCharAux]
  | cons c cs ih =>
    by_cases hc : c = sep
    · subst hc
      simp only [splitOnCharAux, if_pos rfl]
      refine ⟨by simp, ?_⟩
      intro p hp
      rcases List.mem_cons.mp hp with rfl | hp
      · exact ih.1
      · exact ih.2 p hp
    · simp only [splitOnCharAux, if_neg hc]
      refine ⟨?_, ih.2⟩
      intro hmem
      rcases List.mem_cons.mp hmem with h | h
      · exact hc h.symm
      · exact ih.1 h

/-- Pieces produced by `splitOnChar` never contain the separator. -/
theorem mem_splitOnChar_no_sep (sep : Char) (l : PyStr) :
    ∀ p ∈ splitOnChar sep l, sep ∉ p := by
  intro p hp
  rcases List.mem_cons.mp hp with rfl | hp
  · exact (splitOnCharAux_no_sep sep l).1
  · exact (splitOnCharAux_no_sep sep l).2 p hp

/-- Splitting a separator-free string yields that string as one piece. -/
theorem splitOnCharAux_of_no_sep {sep : Char} {x : PyStr} (hx : sep ∉ x) :
    splitOnCharAux sep x = (x, []) := by
  induction x with
  | nil => rfl
  | cons c cs ih =>
    have hc : ¬ c = sep := by
      intro h; subst h; exact hx (List.mem_cons_self _ _)
    have hcs : sep ∉ cs := fun h => hx (List.mem_cons_of_mem _ h)
    simp [splitOnCharAux, if_neg hc, ih hcs]

/-- `splitOnChar` of a separator-free string is the singleton. -/
theorem splitOnChar_of_no_sep {sep : Char} {x : PyStr} (hx : sep ∉ x) :
    splitOnChar sep x = [x] := by
  simp [splitOnChar, splitOnCharAux_of_no_sep hx]

/-- Splitting `x ++ sep :: l` with `sep ∉ x` peels off `x` (auxiliary
form). -/
theorem splitOnCharAux_append_sep {sep : Char} {x : PyStr} (hx : sep ∉ x)
    (l : PyStr) :
    splitOnCharAux sep (x ++ sep :: l) =
      (x, (splitOnCharAux sep l).1 :: (splitOnCharAux sep l).2) := by
  induction x with
  | nil => simp [splitOnCharAux]
  | cons c cs ih =>
    have hc : ¬ c = sep := by
      intro h; subst h; exact hx (List.mem_cons_self _ _)
    have hcs : sep ∉ cs := fun h => hx (List.mem_cons_of_mem _ h)
    simp [List.cons_append, splitOnCharAux, if_neg hc, ih hcs]

/-- Splitting `x ++ sep :: l` with `sep ∉ x` peels off `x`. -/
theorem splitOnChar_append_sep {sep : Char} {x : PyStr} (hx : sep ∉ x)
    (l : PyStr) :
    splitOnChar sep (x ++ sep :: l) = x :: splitOnChar sep l := by
  simp [splitOnChar, splitOnCharAux_append_sep hx]

/-- Joining then splitting recovers the pieces, provided none contains
the separator. -/
theorem splitOnChar_joinSep {sep : Char} :
    ∀ {ps : List PyStr}, ps ≠ [] → (∀ p ∈ ps, sep ∉ p) →
      splitOnChar sep (joinSep sep ps) = ps
  | [], h, _ => absurd rfl h
  | [p], _, hfree => by
      simp [joinSep, splitOnChar_of_no_sep (hfree p (List.mem_cons_self _ _))]
  | p :: q :: ps, _, hfree => by
      have h1 : sep ∉ p := hfree p (List.mem_cons_self _ _)
      have hrest : ∀ r ∈ q :: ps, sep ∉ r :=
        fun r hr => hfree r (List.mem_cons_of_mem _ hr)
      have hj : joinSep sep (p :: q :: ps) = p ++ sep :: joinSep sep (q :: ps) := rfl
      rw [hj, splitOnChar_append_sep h1,
        splitOnChar_joinSep (List.cons_ne_nil q ps) hrest]

/-- A split is never the empty list of pieces. -/
theorem splitOnChar_ne_nil (sep : Char) (l : PyStr) : splitOnChar sep l ≠ [] :=
  List.cons_ne_nil _ _

/-- Membership in `dedupKeepFirst`: kept iff present and not seen before. -/
theorem mem_dedupKeepFirst {α : Type} [DecidableEq α] (seen l : List α) (x : α) :
    x ∈ dedupKeepFirst seen l ↔ x ∈ l ∧ x ∉ seen := by
  induction l generalizing seen with
  | nil => simp [dedupKeepFirst]
  | cons y ys ih =>
    simp only [dedupKeepFirst]
    by_cases hy : y ∈ seen
    · rw [if_pos hy, ih]
      constructor
      · rintro ⟨h1, h2⟩
        exact ⟨List.mem_cons_of_mem _ h1, h2⟩
      · rintro ⟨h1, h2⟩
        rcases List.mem_cons.mp h1 with rfl | h1
        · exact absurd hy h2
        · exact ⟨h1, h2⟩
    · rw [if_neg hy]
      constructor
      · intro hmem
        rcases List.mem_cons.mp hmem with rfl | hmem
        · exact ⟨List.mem_cons_self _ _, hy⟩
        · obtain ⟨h1, h2⟩ := (ih (y :: seen)).mp hmem
          refine ⟨List.mem_cons_of_mem _ h1, fun hs => h2 (List.mem_cons_of_mem _ hs)⟩
      · rintro ⟨h1, h2⟩
        rcases List.mem_cons.mp h1 with rfl | h1
        · exact List.mem_cons_self _ _
        · by_cases hxy : x = y
          · subst hxy; exact List.mem_cons_self _ _
          · refine List.mem_cons_of_mem _ ((ih (y :: seen)).mpr ⟨h1, ?_⟩)
            intro hs
            rcases List.mem_cons.mp hs with h | h
            · exact hxy h
            · exact h2 h

/-- `dedupKeepFirst` keeps elements in place: the result is a sublist. -/
theorem dedupKeepFirst_sublist {α : Type} [DecidableEq α] (seen l : List α) :
    (dedupKeepFirst seen l).Sublist l := by
  induction l generalizing seen with
  | nil => simp [dedupKeepFirst]
  | cons y ys ih =>
    simp only [dedupKeepFirst]
    by_cases hy : y ∈ seen
    · rw [if_pos hy]
      exact List.Sublist.cons y (ih seen)
    · rw [if_neg hy]
      exact List.Sublist.cons₂ y (ih (y :: seen))

/-- `dedupKeepFirst` produces no duplicates. -/
theorem dedupKeepFirst_nodup {α : Type} [DecidableEq α] (seen l : List α) :
    (dedupKeepFirst seen l).Nodup := by
  induction l generalizing seen with
  | nil => simp [dedupKeepFirst]
  | cons y ys ih =>
    simp only [dedupKeepFirst]
    by_cases hy : y ∈ seen
    · rw [if_pos hy]; exact ih seen
    · rw [if_neg hy]
      refine List.nodup_cons.mpr ⟨?_, ih (y :: seen)⟩
      intro hmem
      obtain ⟨_, h2⟩ := (mem_dedupKeepFirst _ _ _).mp hmem
      exact h2 (List.mem_cons_self _ _)

/-- On a duplicate-free list disjoint from `seen`, `dedupKeepFirst` is
the identity. -/
theorem dedupKeepFirst_eq_self {α : Type} [DecidableEq α] :
    ∀ {seen l : List α}, l.Nodup → (∀ x ∈ l, x ∉ seen) →
      dedupKeepFirst seen l = l := by
  intro seen l
  induction l generalizing seen with
  | nil => intro _ _; rfl
  | cons y ys ih =>
    intro hn hdisj
    have hy : y ∉ seen := hdisj y (List.mem_cons_self _ _)
    simp only [dedupKeepFirst, if_neg hy]
    congr 1
    refine ih (List.nodup_cons.mp hn).2 ?_
    intro x hx hmem
    rcases List.mem_cons.mp hmem with rfl | h
    · exact (List.nodup_cons.mp hn).1 hx
    · exact hdisj x (List.mem_cons_of_mem _ hx) h

/-- A nonempty list survives `dedupKeepFirst []` as a nonempty list. -/
theorem dedupKeepFirst_nil_ne_nil {α : Type} [DecidableEq α] :
    ∀ {l : List α}, l ≠ [] → dedupKeepFirst [] l ≠ []
  | [], h, _ => h rfl
  | x :: xs, _, h => by simp [dedupKeepFirst] at h

/-- `dedupKeepFirst` with accumulator `seen` equals filtering out `seen`
and then deleting every later duplicate. -/
theorem dedupKeepFirst_eq_keepFirstRec {α : Type} [DecidableEq α]
    (l : List α) : ∀ seen : List α,
    dedupKeepFirst seen l = keepFirstRec (l.filter fun x => x ∉ seen) := by
  induction l with
  | nil => intro seen; simp [dedupKeepFirst, keepFirstRec]
  | cons y ys ih =>
    intro seen
    by_cases hy : y ∈ seen
    · rw [dedupKeepFirst, if_pos hy, List.filter_cons, if_neg (by simp [hy]), ih]
    · have hfil : (ys.filter fun x => x ∉ y :: seen) =
          ((ys.filter fun x => x ∉ seen).filter fun a => a ≠ y) := by
        rw [List.filter_filter]
        apply List.filter_congr
        intro x _
        by_cases h1 : x = y <;> by_cases h2 : x ∈ seen <;> simp [h1, h2]
      rw [dedupKeepFirst, if_neg hy, List.filter_cons, if_pos (by simp [hy])]
      simp only [keepFirstRec]
      rw [ih (y :: seen), hfil]

/-- With an empty accumulator, `dedupKeepFirst` is exactly the
keep-the-first-occurrence function. -/
theorem dedupKeepFirst_nil_eq_keepFirstRec {α : Type} [DecidableEq α]
    (l : List α) : dedupKeepFirst [] l = keepFirstRec l := by
  rw [dedupKeepFirst_eq_keepFirstRec l []]
  congr 1
  simp

/-- Looking up the key just set returns the new value. -/
theorem envLookup_envSet_self (d : EnvMap) (k v : PyStr) :
    envLookup (envSet d k v) k = some v := by
  induction d with
  | nil => simp [envSet, envLookup]
  | cons kv rest ih =>
    obtain ⟨k0, v0⟩ := kv
    by_cases h : k0 = k
    · subst h; simp [envSet, envLookup]
    · simp [envSet, envLookup, h, ih]

/-- Setting the same key twice keeps only the last value. -/
theorem envSet_envSet_self (d : EnvMap) (k v w : PyStr) :
    envSet (envSet d k v) k w = envSet d k w := by
  induction d with
  | nil => simp [envSet]
  | cons kv rest ih =>
    obtain ⟨k0, v0⟩ := kv
    by_cases h : k0 = k
    · subst h; simp [envSet]
    · simp [envSet, h, ih]

/-- Splitting the re-joined deduplicated value recovers exactly the
deduplicated segment list. -/
theorem splitOnChar_join_dedup (sep : Char) (v : PyStr) :
    splitOnChar sep (joinSep sep (dedupKeepFirst [] (splitOnChar sep v))) =
      dedupKeepFirst [] (splitOnChar sep v) := by
  apply splitOnChar_joinSep
  · exact dedupKeepFirst_nil_ne_nil (splitOnChar_ne_nil sep v)
  · intro p hp
    exact mem_splitOnChar_no_sep sep v p ((mem_dedupKeepFirst _ _ _).mp hp).1

/-- Unfolding of `deduplicate_list` when the key is present. -/
theorem deduplicate_list_of_lookup {d : EnvMap} {key v : PyStr}
    (h : envLookup d key = some v) :
    deduplicate_list d key =
      envSet d key (joinSep ':' (dedupKeepFirst [] (splitOnChar ':' v))) := by
  rw [deduplicate_list, h]

/-- C7: `deduplicate_list` applied twice yields the same value as applied
once on any key whose value has duplicate `:`-separated segments, and the
deduplicated value keeps exactly the first occurrence of each segment in
its original position: its segment list is `keepFirstRec` of the original
segments — a duplicate-free sublist of them. -/
theorem c7_deduplicate_list_idempotent_keeps_first
    (d : EnvMap) (key v : PyStr)
    (hv : envLookup d key = some v)
    (_hdup : ¬ (splitOnChar ':' v).Nodup) :
    deduplicate_list (deduplicate_list d key) key = deduplicate_list d key ∧
    ∃ w, envLookup (deduplicate_list d key) key = some w ∧
      splitOnChar ':' w = keepFirstRec (splitOnChar ':' v) ∧
      (splitOnChar ':' w).Sublist (splitOnChar ':' v) ∧
      (splitOnChar ':' w).Nodup := by
  have h1 : deduplicate_list d key =
      envSet d key (joinSep ':' (dedupKeepFirst [] (splitOnChar ':' v))) :=
    deduplicate_list_of_lookup hv
  have hlook : envLookup (deduplicate_list d key) key =
      some (joinSep ':' (dedupKeepFirst [] (splitOnChar ':' v))) := by
    rw [h1]; exact envLookup_envSet_self d key _
  have hsplitw :
      splitOnChar ':' (joinSep ':' (dedupKeepFirst [] (splitOnChar ':' v))) =
        dedupKeepFirst [] (splitOnChar ':' v) :=
    splitOnChar_join_dedup ':' v
  have hidem : dedupKeepFirst [] (dedupKeepFirst [] (splitOnChar ':' v)) =
      dedupKeepFirst [] (splitOnChar ':' v) :=
    dedupKeepFirst_eq_self (dedupKeepFirst_nodup _ _)
      (fun x _ => List.not_mem_nil x)
  refine ⟨?_, joinSep ':' (dedupKeepFirst [] (splitOnChar ':' v)),
    hlook, ?_, ?_, ?_⟩
  · rw [deduplicate_list_of_lookup hlook, hsplitw, hidem, h1, envSet_envSet_self]
  · rw [hsplitw, dedupKeepFirst_nil_eq_keepFirstRec]
  · rw [hsplitw]; exact dedupKeepFirst_sublist [] _
  · rw [hsplitw]; exact dedupKeepFirst_nodup [] _

/-- C7 witness: the value `a:a` of `PATH` has duplicate segments, and
deduplicating twice equals deduplicating once. -/
theorem c7_witness :
    envLookup [(pyStr "PATH", pyStr "a:a")] (pyStr "PATH") = some (pyStr "a:a") ∧
    ¬ (splitOnChar ':' (pyStr "a:a")).Nodup ∧
    deduplicate_list
        (deduplicate_list [(pyStr "PATH", pyStr "a:a")] (pyStr "PATH"))
        (pyStr "PATH") =
      deduplicate_list [(pyStr "PATH", pyStr "a:a")] (pyStr "PATH") :=
  ⟨rfl, by decide,
    (c7_deduplicate_list_idempotent_keeps_first
      [(pyStr "PATH", pyStr "a:a")] (pyStr "PATH") (pyStr "a:a")
      (by decide) (by decide)).1⟩

/-- C6 counterexample: constructing from two files leaves the duplicate
segments of `LD_LIBRARY_PATH` — a variable whose name ends in `PATH` —
in place, because `Environment.__init__` deduplicates only the variable
named exactly `PATH`. -/
theorem c6_counterexample_non_PATH_keeps_duplicates :
    envLookup
        (environment_init_files [pyStr "LD_LIBRARY_PATH=/x:/x", pyStr "A=1"])
        (pyStr "LD_LIBRARY_PATH") = some (pyStr "/x:/x") ∧
    ¬ (splitOnChar ':' (pyStr "/x:/x")).Nodup :=
  ⟨by decide, by decide⟩

/-- C6 amended: after construction from more than one file, the variable
named exactly `PATH` (and only that one) is deduplicated: its segments
are the first occurrences of the pre-dedup segments, duplicate-free and
in first-seen order (a sublist of the original segment list). -/
theorem c6_amended_only_PATH_deduplicated (contents : List PyStr)
    (hlen : 1 < contents.length) (w : PyStr)
    (hw : envLookup (contents.foldl init_from_str []) (pyStr "PATH") = some w) :
    ∃ v, envLookup (environment_init_files contents) (pyStr "PATH") = some v ∧
      splitOnChar ':' v = dedupKeepFirst [] (splitOnChar ':' w) ∧
      (splitOnChar ':' v).Nodup ∧
      (splitOnChar ':' v).Sublist (splitOnChar ':' w) := by
  have h1 : environment_init_files contents =
      envSet (contents.foldl init_from_str []) (pyStr "PATH")
        (joinSep ':' (dedupKeepFirst [] (splitOnChar ':' w))) := by
    simp only [environment_init_files]
    rw [if_pos hlen, deduplicate_list, hw]
  refine ⟨joinSep ':' (dedupKeepFirst [] (splitOnChar ':' w)), ?_, ?_, ?_, ?_⟩
  · rw [h1]; exact envLookup_envSet_self _ _ _
  · exact splitOnChar_join_dedup ':' w
  · rw [splitOnChar_join_dedup]; exact dedupKeepFirst_nodup _ _
  · rw [splitOnChar_join_dedup]; exact dedupKeepFirst_sublist _ _

/-- C6 witness: two files both defining `PATH=/x:/x`; after construction
`PATH` holds `/x` — deduplicated, first occurrence kept. -/
theorem c6_witness :
    1 < ([pyStr "PATH=/x:/x", pyStr "PATH=/x:/x"] : List PyStr).length ∧
    envLookup
        (([pyStr "PATH=/x:/x", pyStr "PATH=/x:/x"] : List PyStr).foldl
          init_from_str [])
        (pyStr "PATH") = some (pyStr "/x:/x") ∧
    ∃ v, envLookup
        (environment_init_files [pyStr "PATH=/x:/x", pyStr "PATH=/x:/x"])
        (pyStr "PATH") = some v ∧
      splitOnChar ':' v = dedupKeepFirst [] (splitOnChar ':' (pyStr "/x:/x")) ∧
      (splitOnChar ':' v).Nodup ∧
      (splitOnChar ':' v).Sublist (splitOnChar ':' (pyStr "/x:/x")) :=
  ⟨by decide, by decide,
    c6_amended_only_PATH_deduplicated _ (by decide) _ (by decide)⟩

/-- C2 counterexample: with the runtime-directory cache in use
(`use_cache` set and the cached export present), `_prepare_runtime_dir` —
and with it `_write_cloe_env`, the only site of the recursion guard —
is skipped, so even with `CLOE_SHELL` present in the freshly sourced
environment and the abort flag active, `shell` reaches `os.execvpe`
instead of exiting with code 2. -/
theorem c2_counterexample_cached_shell_skips_guard :
    shell_outcome (ShellRunConfig.mk true true true false true true) =
        ShellOutcome.execReplaced ∧
    ShellOutcome.execReplaced ≠ ShellOutcome.exited 2 :=
  ⟨rfl, by decide⟩

/-- C2 amended: whenever the runtime directory is actually rebuilt (the
cache is not used or the cached export is missing) and one of the
generator scripts exists, the presence of `CLOE_SHELL` in the freshly
sourced environment together with an active abort flag makes `shell`
exit with code 2, never reaching `os.execvpe`. -/
theorem c2_amended_guard_exits_on_rebuild (c : ShellRunConfig)
    (hcache : ¬(c.runtime_env_exists = true ∧ c.use_cache = true))
    (hgen : c.conanrun_exists = true ∨ c.activate_run_exists = true)
    (hshell : c.cloe_shell_in_env = true)
    (habort : c.abort_recursive_shell = true) :
    shell_outcome c = ShellOutcome.exited 2 := by
  have h1 : (c.runtime_env_exists && c.use_cache) = false := by
    cases hre : c.runtime_env_exists <;> cases huc : c.use_cache <;> simp_all
  have h2 : (!c.conanrun_exists && !c.activate_run_exists) = false := by
    rcases hgen with h | h <;> simp [h]
  simp [shell_outcome, prepare_runtime_env_outcome, write_cloe_env_guard,
    h1, h2, hshell, habort]

/-- C2 witness: a fresh (non-cached) invocation with `conanrun.sh`
present, `CLOE_SHELL` set and the abort flag active exits with code 2. -/
theorem c2_witness :
    shell_outcome (ShellRunConfig.mk false false true false true true) =
      ShellOutcome.exited 2 :=
  c2_amended_guard_exits_on_rebuild _ (by decide) (Or.inl rfl) rfl rfl

/-- C3: with `CLOE_ENGINE` present in the composed environment,
`Engine.exec` returns the child's exit code unchanged — no remapping and
no exception even when it is non-zero, since `subprocess.run` is called
with `check=False` — and the `teardown()` of every discovered plugin
setup appears in the trace after the program-run event, with no teardown
before it. -/
theorem c3_exec_returns_code_and_runs_teardowns
    (env : EnvMap) (setups : List PyStr) (childCode : Int)
    (h : envHas env (pyStr "CLOE_ENGINE") = true) :
    ∃ evs, engine_exec env setups childCode = Except.ok (childCode, evs) ∧
      ∃ pre post, evs = pre ++ ExecEv.runEv childCode :: post ∧
        (∀ s ∈ setups, ExecEv.teardownEv s ∈ post) ∧
        ∀ e ∈ pre, ∀ s, e ≠ ExecEv.teardownEv s := by
  obtain ⟨v, hv⟩ : ∃ v, envLookup env (pyStr "CLOE_ENGINE") = some v := by
    unfold envHas at h
    cases hl : envLookup env (pyStr "CLOE_ENGINE") with
    | none => rw [hl] at h; simp at h
    | some v => exact ⟨v, rfl⟩
  have hrun : subprocessRun childCode false =
      Except.ok (CompletedProcess.mk childCode []) := by
    rw [subprocessRun, if_neg]
    rintro ⟨h1, _⟩
    cases h1
  refine ⟨setups.map ExecEv.setupEv ++
      ExecEv.runEv childCode :: setups.map ExecEv.teardownEv, ?_, ?_⟩
  · simp only [engine_exec, hv, hrun]
  · refine ⟨setups.map ExecEv.setupEv, setups.map ExecEv.teardownEv, rfl,
      fun s hs => List.mem_map_of_mem _ hs, ?_⟩
    intro e he s
    obtain ⟨x, _, rfl⟩ := List.mem_map.mp he
    simp

/-- C3 witness: one plugin setup and a child exiting 7: `exec` returns 7
and the teardown event follows the run event. -/
theorem c3_witness :
    envHas [(pyStr "CLOE_ENGINE", pyStr "/opt/bin/cloe-engine")]
        (pyStr "CLOE_ENGINE") = true ∧
    ∃ evs, engine_exec [(pyStr "CLOE_ENGINE", pyStr "/opt/bin/cloe-engine")]
        [pyStr "vtd"] 7 = Except.ok (7, evs) ∧
      ∃ pre post, evs = pre ++ ExecEv.runEv 7 :: post ∧
        (∀ s ∈ [pyStr "vtd"], ExecEv.teardownEv s ∈ post) ∧
        ∀ e ∈ pre, ∀ s, e ≠ ExecEv.teardownEv s :=
  ⟨rfl, c3_exec_returns_code_and_runs_teardowns _ _ _ rfl⟩

/-- C8: utility.py's `patch_binary_files_rpath` hands one shared `rpath`
list object to every `patch_rpath` call, and `patch_rpath` mutates it
(`rpath.append(original)`), so the second ELF file's rewritten search
path contains the first file's original search path — contradicting the
claim that no entries originate from other files.  The non-ELF file is
skipped, written nothing and mutating nothing.  binutils.py's variant
copies the list first and matches the claimed per-file behaviour. -/
theorem c8_utility_rpath_leaks_across_files :
    utility_patch_binary_files_rpath
        [BinFile.mk true (pyStr "/o1"), BinFile.mk false (pyStr "x"),
         BinFile.mk true (pyStr "/o2")]
        [pyStr "$ORIGIN/../lib"] =
      [some (pyStr "$ORIGIN/../lib:/o1"), none,
       some (pyStr "$ORIGIN/../lib:/o1:/o2")] ∧
    pyStr "/o1" ∈ splitOnChar ':' (pyStr "$ORIGIN/../lib:/o1:/o2") ∧
    binutils_patch_binary_files_rpath
        [BinFile.mk true (pyStr "/o1"), BinFile.mk false (pyStr "x"),
         BinFile.mk true (pyStr "/o2")]
        [pyStr "$ORIGIN/../lib"] =
      [some (pyStr "$ORIGIN/../lib:/o1"), none,
       some (pyStr "$ORIGIN/../lib:/o2")] :=
  ⟨by decide, by decide, by decide⟩

/-- A path that extends into a strictly longer path by a nonempty rest is
among the ancestors the while loop of `simplify_manifest` visits. -/
theorem strict_prefix_mem_nonrootAncestors :
    ∀ (q : PathT), q ≠ [] → ∀ (r p : PathT), r ≠ [] → q ++ r = p →
      q ∈ nonrootAncestors p := by
  intro q
  induction q with
  | nil => intro h; exact absurd rfl h
  | cons a q' ih =>
    intro _ r p hr hqr
    cases q' with
    | nil =>
      cases r with
      | nil => exact absurd rfl hr
      | cons b rs =>
        subst hqr
        simp [nonrootAncestors]
    | cons c q'' =>
      subst hqr
      have hmem : (c :: q'') ∈ nonrootAncestors ((c :: q'') ++ r) :=
        ih (List.cons_ne_nil c q'') r _ hr rfl
      have h2 : nonrootAncestors ((a :: c :: q'') ++ r) =
          [a] :: (nonrootAncestors ((c :: q'') ++ r)).map (fun t => a :: t) :=
        rfl
      rw [h2]
      exact List.mem_cons_of_mem _ (List.mem_map_of_mem _ hmem)

/-- The fold inside `simplify_manifest` only ever removes entries. -/
theorem simplify_fold_subset :
    ∀ (l : List PathT) (acc : List PathT),
      ∀ x ∈ l.foldl manifest_remove_ancestors acc, x ∈ acc := by
  intro l
  induction l with
  | nil => intro acc x hx; exact hx
  | cons p l ih =>
    intro acc x hx
    rw [List.foldl_cons] at hx
    have hx2 := ih (manifest_remove_ancestors acc p) x hx
    exact (List.mem_filter.mp hx2).1

/-- C9: on the set `{/a, /a/b, /a/b/c}` manifest simplification yields
exactly `{/a/b/c}`; and in general any non-root directory `q` with a
strict descendant `p = q ++ r` in the manifest is absent from the
simplified manifest, so only the most specific directories get `rmdir`
lines. -/
theorem c9_simplify_manifest_drops_ancestors :
    simplify_manifest
        [[pyStr "a"], [pyStr "a", pyStr "b"], [pyStr "a", pyStr "b", pyStr "c"]] =
      [[pyStr "a", pyStr "b", pyStr "c"]] ∧
    ∀ (m : List PathT) (p q r : PathT), p ∈ m → q ≠ [] → r ≠ [] →
      q ++ r = p → q ∉ simplify_manifest m := by
  constructor
  · decide
  · intro m p q r hp hq hr hqr hmem
    obtain ⟨s, t, rfl⟩ := List.append_of_mem hp
    rw [simplify_manifest, List.foldl_append, List.foldl_cons] at hmem
    have h2 := simplify_fold_subset t _ q hmem
    have h3 := (List.mem_filter.mp h2).2
    simp only [decide_eq_true_eq] at h3
    exact h3 (strict_prefix_mem_nonrootAncestors q hq r p hr hqr)

/-- C9 witness: `/a` is dropped from the simplified manifest because its
descendant `/a/b/c` is listed. -/
theorem c9_witness :
    [pyStr "a"] ∉ simplify_manifest
        [[pyStr "a"], [pyStr "a", pyStr "b"], [pyStr "a", pyStr "b", pyStr "c"]] :=
  c9_simplify_manifest_drops_ancestors.2 _
    [pyStr "a", pyStr "b", pyStr "c"] [pyStr "a"] [pyStr "b", pyStr "c"]
    (by decide) (by decide) (by decide) rfl

/-- C10: cross-instance interference through the shared class-level
`_shell_env` dict.  A first construction with `preserve=["MY_VAR"]`
copies `MY_VAR` from the process environment into the class dict; a
second construction using the default preserve list — which does not
match `MY_VAR` — still forwards `MY_VAR` into the environment its
`init_from_shell` hands the child shell, while the identical second
construction against a fresh class state does not: the second
construction's result is not a function of its own arguments and the
process environment alone. -/
theorem c10_shell_env_leaks_across_instances :
    envLookup
        (environment_shell_env none
          [(pyStr "MY_VAR", pyStr "secret"), (pyStr "PATH", pyStr "/usr/bin")]
          (environment_shell_env (some [PreservePat.lit (pyStr "MY_VAR")])
            [(pyStr "MY_VAR", pyStr "secret"), (pyStr "PATH", pyStr "/usr/bin")]
            initial_shell_env))
        (pyStr "MY_VAR") = some (pyStr "secret") ∧
    envLookup
        (environment_shell_env none
          [(pyStr "MY_VAR", pyStr "secret"), (pyStr "PATH", pyStr "/usr/bin")]
          initial_shell_env)
        (pyStr "MY_VAR") = none :=
  ⟨by decide, by decide⟩

/-- C4 counterexample: the value `a b` contains a space, so `export`
writes it shell-quoted; literal re-import keeps the quotes (exec.py:
"Quotes are not removed"), so the round trip does not restore the
original mapping. -/
theorem c4_counterexample_space_value_not_roundtripped :
    export_reimport [(pyStr "K", pyStr "a b")] =
        [(pyStr "K", sqChar :: (pyStr "a b" ++ [sqChar]))] ∧
    export_reimport [(pyStr "K", pyStr "a b")] ≠ [(pyStr "K", pyStr "a b")] :=
  ⟨by decide, by decide⟩

/-- `shlex.quote` leaves a non-empty all-safe string unchanged. -/
theorem shlexQuote_of_safe {v : PyStr} (hne : v ≠ [])
    (hsafe : v.all shlexSafe = true) : shlexQuote v = v := by
  rw [shlexQuote, if_neg hne, if_pos hsafe]

/-- A string of shlex-safe characters contains no newline. -/
theorem no_nl_of_all_safe {v : PyStr} (h : v.all shlexSafe = true) :
    nlChar ∉ v := by
  intro hmem
  have hc := List.all_eq_true.mp h nlChar hmem
  exact absurd hc (by decide)

/-- `export_env` concatenates one `exportLine` per entry. -/
theorem export_env_eq_flatten (d : EnvMap) :
    export_env d = (d.map exportLine).flatten := by
  suffices h : ∀ acc : PyStr,
      d.foldl (fun acc kv => acc ++ kv.1 ++ '=' :: shlexQuote kv.2 ++ [nlChar]) acc =
        acc ++ (d.map exportLine).flatten by
    have h0 := h []
    rw [List.nil_append] at h0
    exact h0
  induction d with
  | nil => intro acc; simp
  | cons kv rest ih =>
    intro acc
    simp only [List.foldl_cons, List.map_cons, List.flatten_cons, ih]
    simp [exportLine, exportBody, List.append_assoc]

/-- Splitting a concatenation of newline-terminated, newline-free bodies
recovers the bodies plus one final empty piece. -/
theorem splitOnChar_flatten_lines :
    ∀ (bodies : List PyStr), (∀ b ∈ bodies, nlChar ∉ b) →
      splitOnChar nlChar ((bodies.map (fun b => b ++ [nlChar])).flatten) =
        bodies ++ [[]] := by
  intro bodies
  induction bodies with
  | nil => intro _; rfl
  | cons b bs ih =>
    intro h
    have hb : nlChar ∉ b := h b (List.mem_cons_self _ _)
    have hbs : ∀ x ∈ bs, nlChar ∉ x := fun x hx => h x (List.mem_cons_of_mem _ hx)
    simp only [List.map_cons, List.flatten_cons]
    have hshape : (b ++ [nlChar]) ++ (bs.map (fun x => x ++ [nlChar])).flatten =
        b ++ nlChar :: (bs.map (fun x => x ++ [nlChar])).flatten := by
      simp [List.append_assoc]
    rw [hshape, splitOnChar_append_sep hb, ih hbs]
    rfl

/-- Splitting a good key-value body at the first `=` recovers key and
value. -/
theorem splitOnceChar_append_sep {sep : Char} {k : PyStr} (hk : sep ∉ k)
    (v : PyStr) : splitOnceChar sep (k ++ sep :: v) = some (k, v) := by
  induction k with
  | nil => simp [splitOnceChar]
  | cons c cs ih =>
    have hc : ¬ c = sep := by
      intro h; subst h; exact hk (List.mem_cons_self _ _)
    have hcs : sep ∉ cs := fun h => hk (List.mem_cons_of_mem _ h)
    simp [splitOnceChar, if_neg hc, ih hcs]

/-- `init_from_str_line` on a body `k=v` with a well-formed key assigns
`k` to `v`. -/
theorem init_from_str_line_kv (acc : EnvMap) (k v : PyStr)
    (hkeq : '=' ∉ k) (hhash : k.head? ≠ some '#') :
    init_from_str_line acc (k ++ '=' :: v) = envSet acc k v := by
  have hns : ¬ ((k ++ '=' :: v).all isPySpace = true) := by
    intro hall
    have hc := List.all_eq_true.mp hall '=' (by simp)
    exact absurd hc (by decide)
  have hhd : ¬ ((k ++ '=' :: v).head? = some '#') := by
    cases k with
    | nil =>
      intro h
      simp only [List.nil_append, List.head?_cons, Option.some.injEq] at h
      exact absurd h (by decide)
    | cons c cs => simpa using hhash
  rw [init_from_str_line, if_neg hns, if_neg hhd, splitOnceChar_append_sep hkeq]

/-- Folding `init_from_str_line` over the export bodies equals folding
plain dict assignment over the entries. -/
theorem fold_lines_eq_fold_envSet :
    ∀ (d : EnvMap) (acc : EnvMap),
      (∀ kv ∈ d, '=' ∉ kv.1 ∧ kv.1.head? ≠ some '#') →
      (∀ kv ∈ d, shlexQuote kv.2 = kv.2) →
      (d.map exportBody).foldl init_from_str_line acc =
        d.foldl (fun a kv => envSet a kv.1 kv.2) acc := by
  intro d
  induction d with
  | nil => intro acc _ _; rfl
  | cons kv rest ih =>
    intro acc hk hq
    obtain ⟨k, v⟩ := kv
    have h1 := hk (k, v) (List.mem_cons_self _ _)
    have h2 := hq (k, v) (List.mem_cons_self _ _)
    have hbody : exportBody (k, v) = k ++ '=' :: v := by
      simp only [exportBody, h2]
    simp only [List.map_cons, List.foldl_cons, hbody]
    rw [init_from_str_line_kv acc k v h1.1 h1.2]
    exact ih _ (fun x hx => hk x (List.mem_cons_of_mem _ hx))
      (fun x hx => hq x (List.mem_cons_of_mem _ hx))

/-- Setting a key absent from the dict appends the entry. -/
theorem envSet_append_fresh :
    ∀ (acc : EnvMap) (k v : PyStr), (∀ kv ∈ acc, kv.1 ≠ k) →
      envSet acc k v = acc ++ [(k, v)] := by
  intro acc
  induction acc with
  | nil => intro k v _; rfl
  | cons kv rest ih =>
    intro k v h
    obtain ⟨k0, v0⟩ := kv
    have hk0 : ¬ k0 = k := h (k0, v0) (List.mem_cons_self _ _)
    simp [envSet, hk0, ih k v (fun x hx => h x (List.mem_cons_of_mem _ hx))]

/-- Folding assignment of entries with pairwise-distinct keys onto a
dict whose keys are disjoint from them appends the entries in order. -/
theorem foldl_envSet_of_nodup_keys :
    ∀ (d : EnvMap) (acc : EnvMap), (d.map Prod.fst).Nodup →
      (∀ kv ∈ acc, ∀ kv2 ∈ d, kv.1 ≠ kv2.1) →
      d.foldl (fun a kv => envSet a kv.1 kv.2) acc = acc ++ d := by
  intro d
  induction d with
  | nil => intro acc _ _; simp
  | cons kv rest ih =>
    intro acc hn hdisj
    obtain ⟨k, v⟩ := kv
    have hn' : (k :: rest.map Prod.fst).Nodup := by simpa using hn
    simp only [List.foldl_cons]
    have hfresh : ∀ x ∈ acc, x.1 ≠ k :=
      fun x hx => hdisj x hx (k, v) (List.mem_cons_self _ _)
    rw [envSet_append_fresh acc k v hfresh]
    rw [ih (acc ++ [(k, v)]) (List.nodup_cons.mp hn').2 ?_]
    · simp
    · intro x hx kv2 hkv2
      rcases List.mem_append.mp hx with h | h
      · exact hdisj x h kv2 (List.mem_cons_of_mem _ hkv2)
      · rcases List.mem_singleton.mp h with rfl
        intro heq
        apply (List.nodup_cons.mp hn').1
        rw [show k = kv2.1 from heq]
        exact List.mem_map_of_mem Prod.fst hkv2

/-- C4 amended: `export` followed by literal re-import restores the
mapping exactly when no value needs shell quoting: keys free of `=` and
newline and not starting with `#`, values non-empty and made of
shlex-safe characters (which include `:` but exclude the space).  The
claim as stated fails for values with spaces, which come back wrapped in
the quotes `export` added. -/
theorem c4_amended_roundtrip_safe_values (d : EnvMap)
    (hnodup : (d.map Prod.fst).Nodup)
    (hkeys : ∀ kv ∈ d, '=' ∉ kv.1 ∧ nlChar ∉ kv.1 ∧ kv.1.head? ≠ some '#')
    (hvals : ∀ kv ∈ d, kv.2 ≠ [] ∧ kv.2.all shlexSafe = true) :
    export_reimport d = d := by
  have hq : ∀ kv ∈ d, shlexQuote kv.2 = kv.2 := fun kv hkv =>
    shlexQuote_of_safe (hvals kv hkv).1 (hvals kv hkv).2
  have hbnl : ∀ b ∈ d.map exportBody, nlChar ∉ b := by
    intro b hb
    obtain ⟨kv, hkv, rfl⟩ := List.mem_map.mp hb
    intro hmem
    rw [exportBody] at hmem
    rcases List.mem_append.mp hmem with h | h
    · exact (hkeys kv hkv).2.1 h
    · rcases List.mem_cons.mp h with h | h
      · exact absurd h (by decide)
      · rw [hq kv hkv] at h
        exact no_nl_of_all_safe (hvals kv hkv).2 h
  have hmap : d.map exportLine =
      (d.map exportBody).map (fun b => b ++ [nlChar]) := by
    rw [List.map_map]; rfl
  rw [export_reimport, init_from_str, export_env_eq_flatten, hmap,
    splitOnChar_flatten_lines _ hbnl, List.foldl_append]
  rw [fold_lines_eq_fold_envSet d []
    (fun kv hkv => ⟨(hkeys kv hkv).1, (hkeys kv hkv).2.2⟩) hq]
  rw [foldl_envSet_of_nodup_keys d [] hnodup
    (fun x hx => absurd hx (List.not_mem_nil x))]
  simp [init_from_str_line]

/-- C4 witness: a mapping with safe values (colons and slashes included)
round-trips exactly. -/
theorem c4_witness :
    (([(pyStr "PATH", pyStr "/usr/bin:/bin"), (pyStr "HOME", pyStr "/root")] :
        EnvMap).map Prod.fst).Nodup ∧
    export_reimport
        [(pyStr "PATH", pyStr "/usr/bin:/bin"), (pyStr "HOME", pyStr "/root")] =
      [(pyStr "PATH", pyStr "/usr/bin:/bin"), (pyStr "HOME", pyStr "/root")] :=
  ⟨by decide,
    c4_amended_roundtrip_safe_values _ (by decide) (by decide) (by decide)⟩
